import Mathlib

/-
Verification of the my-interval library: an extended bound-point model
(values augmented with before/at/after proximity and the two infinities)
and the interval containment/overlap algorithm built on it.

The definitions below are a shallow embedding of the Rust source:
  src/bound_point/bound_proximity.rs  (BoundProximity, derived Ord)
  src/bound_point/bound_value.rs      (BoundValue, derived Ord)
  src/bound_point/bound_point.rs      (BoundPoint and its constructors)
  src/interval.rs                     (IntervalType, Interval, IntervalError,
                                       from_to, since_*, until_*, validate,
                                       contains, overlaps)
Rust's derived Ord on an enum compares discriminants first (in declaration
order) and, for equal discriminants, compares the fields lexicographically;
the cmp functions below spell that comparison out.  Rust's `a <= b` is
`a.cmp(b) != Greater` and `a >= b` is `a.cmp(b) != Less`; the boolean
functions le/ge below are those operators.
-/

namespace MyInterval

/-- BoundProximity from src/bound_point/bound_proximity.rs:
declaration order Before, At, After, with derived Ord. -/
inductive BoundProximity : Type
  | Before : BoundProximity
  | At : BoundProximity
  | After : BoundProximity
deriving DecidableEq, Repr

/-- The derived Ord on BoundProximity: discriminant order Before < At < After. -/
def BoundProximity.cmp : BoundProximity → BoundProximity → Ordering
  | .Before, .Before => .eq
  | .Before, _ => .lt
  | .At, .Before => .gt
  | .At, .At => .eq
  | .At, .After => .lt
  | .After, .After => .eq
  | .After, _ => .gt

/-- BoundValue from src/bound_point/bound_value.rs:
declaration order NegInfinity, Finite(T, BoundProximity), PosInfinity,
with derived Ord. -/
inductive BoundValue (T : Type) : Type
  | NegInfinity : BoundValue T
  | Finite : T → BoundProximity → BoundValue T
  | PosInfinity : BoundValue T
deriving DecidableEq, Repr

/-- The derived Ord on BoundValue: discriminants first
(NegInfinity < Finite < PosInfinity), then for two Finite values the
fields lexicographically: the T value, then the proximity. -/
def BoundValue.cmp {T : Type} [LinearOrder T] :
    BoundValue T → BoundValue T → Ordering
  | .NegInfinity, .NegInfinity => .eq
  | .NegInfinity, _ => .lt
  | _, .NegInfinity => .gt
  | .Finite a p, .Finite b q =>
      match compare a b with
      | .eq => BoundProximity.cmp p q
      | o => o
  | .Finite _ _, .PosInfinity => .lt
  | .PosInfinity, .Finite _ _ => .gt
  | .PosInfinity, .PosInfinity => .eq

/-- BoundPoint from src/bound_point/bound_point.rs: a wrapper holding one
BoundValue, ordered through it. -/
structure BoundPoint (T : Type) : Type where
  value : BoundValue T
deriving DecidableEq, Repr

namespace BoundPoint

def before {T : Type} (value : T) : BoundPoint T :=
  ⟨BoundValue.Finite value BoundProximity.Before⟩

def at_ {T : Type} (value : T) : BoundPoint T :=
  ⟨BoundValue.Finite value BoundProximity.At⟩

def after {T : Type} (value : T) : BoundPoint T :=
  ⟨BoundValue.Finite value BoundProximity.After⟩

def neg_infinity {T : Type} : BoundPoint T :=
  ⟨BoundValue.NegInfinity⟩

def pos_infinity {T : Type} : BoundPoint T :=
  ⟨BoundValue.PosInfinity⟩

/-- BoundPoint comparison, inherited from the inner BoundValue. -/
def cmp {T : Type} [LinearOrder T] (a b : BoundPoint T) : Ordering :=
  BoundValue.cmp a.value b.value

/-- Rust `a <= b` on BoundPoint: the comparison is not Greater. -/
def le {T : Type} [LinearOrder T] (a b : BoundPoint T) : Bool :=
  match cmp a b with
  | .gt => false
  | _ => true

/-- Rust `a >= b` on BoundPoint: the comparison is not Less. -/
def ge {T : Type} [LinearOrder T] (a b : BoundPoint T) : Bool :=
  match cmp a b with
  | .lt => false
  | _ => true

end BoundPoint

/-- IntervalType from src/interval.rs. -/
inductive IntervalType : Type
  | Open : IntervalType
  | StartOpen : IntervalType
  | EndOpen : IntervalType
  | Close : IntervalType
deriving DecidableEq, Repr

/-- IntervalError from src/interval.rs. -/
inductive IntervalError : Type
  | StartMustBeMinorThanEnd : IntervalError
deriving DecidableEq, Repr

/-- Interval from src/interval.rs: a pair of BoundPoints.
The Rust field named end is called endp here (end is a Lean keyword). -/
structure Interval (T : Type) : Type where
  start : BoundPoint T
  endp : BoundPoint T
deriving DecidableEq, Repr

namespace Interval

/-- Interval::validate: error iff start > end under T's native order. -/
def validate {T : Type} [LinearOrder T] (start endv : T) :
    Except IntervalError Unit :=
  if start > endv then
    Except.error IntervalError.StartMustBeMinorThanEnd
  else
    Except.ok ()

/-- Interval::from_to: validate, then build the two bound points per the
interval type. -/
def from_to {T : Type} [LinearOrder T] (start endv : T)
    (interval_type : IntervalType) : Except IntervalError (Interval T) :=
  match validate start endv with
  | Except.error e => Except.error e
  | Except.ok _ =>
    match interval_type with
    | IntervalType.Open =>
        Except.ok ⟨BoundPoint.after start, BoundPoint.before endv⟩
    | IntervalType.StartOpen =>
        Except.ok ⟨BoundPoint.after start, BoundPoint.at_ endv⟩
    | IntervalType.EndOpen =>
        Except.ok ⟨BoundPoint.at_ start, BoundPoint.before endv⟩
    | IntervalType.Close =>
        Except.ok ⟨BoundPoint.at_ start, BoundPoint.at_ endv⟩

/-- Interval::since_exclusive. -/
def since_exclusive {T : Type} (value : T) : Interval T :=
  ⟨BoundPoint.after value, BoundPoint.pos_infinity⟩

/-- Interval::since_inclusive. -/
def since_inclusive {T : Type} (value : T) : Interval T :=
  ⟨BoundPoint.at_ value, BoundPoint.pos_infinity⟩

/-- Interval::until_exclusive. -/
def until_exclusive {T : Type} (value : T) : Interval T :=
  ⟨BoundPoint.neg_infinity, BoundPoint.before value⟩

/-- Interval::until_inclusive. -/
def until_inclusive {T : Type} (value : T) : Interval T :=
  ⟨BoundPoint.neg_infinity, BoundPoint.at_ value⟩

/-- Interval::contains: start <= at(value) && end >= at(value). -/
def contains {T : Type} [LinearOrder T] (i : Interval T) (value : T) : Bool :=
  BoundPoint.le i.start (BoundPoint.at_ value) &&
    BoundPoint.ge i.endp (BoundPoint.at_ value)

/-- Interval::overlaps: self.start <= other.end && self.end >= other.start. -/
def overlaps {T : Type} [LinearOrder T] (a b : Interval T) : Bool :=
  BoundPoint.le a.start b.endp && BoundPoint.ge a.endp b.start

end Interval

/-
Spec-level ordering.  The following two relations transcribe the spec's
description of the order (section 3: NegInfinity below everything,
PosInfinity above everything, Finite values lexicographically by value
then by proximity with Before < At < After).  They are used to state the
refinement claims; the executable cmp/le/ge above come from the source.
-/

/-- Rank of a proximity in the spec ordering Before < At < After. -/
def BoundProximity.rank : BoundProximity → Nat
  | .Before => 0
  | .At => 1
  | .After => 2

/-- The spec's strict order on extended bound values: NegInfinity is below
every other value, PosInfinity above every other value, and two Finite
values compare first by value and only on equal values by proximity. -/
def BoundValue.specLT {T : Type} [LinearOrder T] :
    BoundValue T → BoundValue T → Prop
  | _, .NegInfinity => False
  | .NegInfinity, _ => True
  | .PosInfinity, _ => False
  | _, .PosInfinity => True
  | .Finite a p, .Finite b q => a < b ∨ (a = b ∧ p.rank < q.rank)

/-- The spec's non-strict order on extended bound values. -/
def BoundValue.specLE {T : Type} [LinearOrder T] :
    BoundValue T → BoundValue T → Prop
  | .NegInfinity, _ => True
  | _, .NegInfinity => False
  | _, .PosInfinity => True
  | .PosInfinity, _ => False
  | .Finite a p, .Finite b q => a < b ∨ (a = b ∧ p.rank ≤ q.rank)

/-
Bridge lemmas: the executable comparison functions coincide with the
spec-level order.
-/

lemma BoundProximity.cmp_lt_iff_rank (p q : BoundProximity) :
    BoundProximity.cmp p q = Ordering.lt ↔ p.rank < q.rank := by
  cases p <;> cases q <;> decide

lemma BoundProximity.cmp_eq_iff_eq_prox (p q : BoundProximity) :
    BoundProximity.cmp p q = Ordering.eq ↔ p = q := by
  cases p <;> cases q <;> decide

lemma BoundProximity.cmp_gt_iff_rank (p q : BoundProximity) :
    BoundProximity.cmp p q = Ordering.gt ↔ q.rank < p.rank := by
  cases p <;> cases q <;> decide

lemma BoundValue.cmp_eq_lt_iff {T : Type} [LinearOrder T]
    (x y : BoundValue T) :
    BoundValue.cmp x y = Ordering.lt ↔ BoundValue.specLT x y := by
  cases x <;> cases y <;>
    simp only [BoundValue.cmp, BoundValue.specLT] <;>
    try simp
  case Finite.Finite a p b q =>
    rcases lt_trichotomy a b with h | h | h
    · rw [compare_lt_iff_lt.mpr h]
      simp [h]
    · subst h
      rw [compare_eq_iff_eq.mpr rfl]
      simp [BoundProximity.cmp_lt_iff_rank]
    · rw [compare_gt_iff_gt.mpr h]
      simp [lt_asymm h, h.ne']

lemma BoundValue.cmp_eq_eq_iff {T : Type} [LinearOrder T]
    (x y : BoundValue T) :
    BoundValue.cmp x y = Ordering.eq ↔ x = y := by
  cases x <;> cases y <;>
    simp only [BoundValue.cmp] <;>
    try simp
  case Finite.Finite a p b q =>
    rcases lt_trichotomy a b with h | h | h
    · rw [compare_lt_iff_lt.mpr h]
      simp [h.ne]
    · subst h
      rw [compare_eq_iff_eq.mpr rfl]
      simp [BoundProximity.cmp_eq_iff_eq_prox]
    · rw [compare_gt_iff_gt.mpr h]
      simp [h.ne']

lemma BoundValue.cmp_eq_gt_iff {T : Type} [LinearOrder T]
    (x y : BoundValue T) :
    BoundValue.cmp x y = Ordering.gt ↔ BoundValue.specLT y x := by
  cases x <;> cases y <;>
    simp only [BoundValue.cmp, BoundValue.specLT] <;>
    try simp
  case Finite.Finite a p b q =>
    rcases lt_trichotomy a b with h | h | h
    · rw [compare_lt_iff_lt.mpr h]
      simp [lt_asymm h, h.ne']
    · subst h
      rw [compare_eq_iff_eq.mpr rfl]
      simp [BoundProximity.cmp_gt_iff_rank]
    · rw [compare_gt_iff_gt.mpr h]
      simp [h]

lemma BoundValue.specLE_iff_not_specLT {T : Type} [LinearOrder T]
    (x y : BoundValue T) :
    BoundValue.specLE x y ↔ ¬ BoundValue.specLT y x := by
  cases x <;> cases y <;>
    simp only [BoundValue.specLE, BoundValue.specLT] <;>
    try simp
  case Finite.Finite a p b q =>
    rcases lt_trichotomy a b with h | h | h
    · simp [h, lt_asymm h, h.ne', h.le]
    · subst h
      constructor
      · rintro (h1 | ⟨-, h2⟩)
        · exact absurd h1 (lt_irrefl a)
        · exact ⟨le_refl a, fun _ => h2⟩
      · rintro ⟨-, h2⟩
        exact Or.inr ⟨rfl, h2 rfl⟩
    · simp [lt_asymm h, h.ne', h.not_le]

lemma BoundValue.specLT_trans {T : Type} [LinearOrder T]
    {x y z : BoundValue T} (hxy : BoundValue.specLT x y)
    (hyz : BoundValue.specLT y z) : BoundValue.specLT x z := by
  cases x <;> cases y <;> cases z <;>
    simp only [BoundValue.specLT] at * <;>
    try trivial
  rcases hxy with h1 | ⟨rfl, hp⟩ <;> rcases hyz with h2 | ⟨rfl, hq⟩
  · exact Or.inl (lt_trans h1 h2)
  · exact Or.inl h1
  · exact Or.inl h2
  · exact Or.inr ⟨rfl, lt_trans hp hq⟩

lemma BoundValue.specLE_trans {T : Type} [LinearOrder T]
    {x y z : BoundValue T} (hxy : BoundValue.specLE x y)
    (hyz : BoundValue.specLE y z) : BoundValue.specLE x z := by
  cases x <;> cases y <;> cases z <;>
    simp only [BoundValue.specLE] at * <;>
    try trivial
  rcases hxy with h1 | ⟨rfl, hp⟩ <;> rcases hyz with h2 | ⟨rfl, hq⟩
  · exact Or.inl (lt_trans h1 h2)
  · exact Or.inl h1
  · exact Or.inl h2
  · exact Or.inr ⟨rfl, le_trans hp hq⟩

lemma BoundPoint.le_eq_true_iff {T : Type} [LinearOrder T]
    (a b : BoundPoint T) :
    BoundPoint.le a b = true ↔ BoundValue.specLE a.value b.value := by
  rw [BoundValue.specLE_iff_not_specLT, ← BoundValue.cmp_eq_gt_iff]
  unfold BoundPoint.le BoundPoint.cmp
  rcases h : BoundValue.cmp a.value b.value <;> simp [h]

lemma BoundPoint.ge_eq_true_iff {T : Type} [LinearOrder T]
    (a b : BoundPoint T) :
    BoundPoint.ge a b = true ↔ BoundValue.specLE b.value a.value := by
  rw [BoundValue.specLE_iff_not_specLT, ← BoundValue.cmp_eq_lt_iff]
  unfold BoundPoint.ge BoundPoint.cmp
  rcases h : BoundValue.cmp a.value b.value <;> simp [h]

lemma BoundValue.specLE_finite_iff {T : Type} [LinearOrder T]
    (a b : T) (p q : BoundProximity) :
    BoundValue.specLE (BoundValue.Finite a p) (BoundValue.Finite b q) ↔
      (a < b ∨ (a = b ∧ p.rank ≤ q.rank)) :=
  Iff.rfl

lemma Interval.contains_eq_true_iff {T : Type} [LinearOrder T]
    (i : Interval T) (v : T) :
    Interval.contains i v = true ↔
      BoundValue.specLE i.start.value (BoundValue.Finite v BoundProximity.At) ∧
        BoundValue.specLE (BoundValue.Finite v BoundProximity.At)
          i.endp.value := by
  unfold Interval.contains
  rw [Bool.and_eq_true, BoundPoint.le_eq_true_iff, BoundPoint.ge_eq_true_iff]
  exact Iff.rfl

lemma Interval.overlaps_eq_true_iff {T : Type} [LinearOrder T]
    (a b : Interval T) :
    Interval.overlaps a b = true ↔
      BoundValue.specLE a.start.value b.endp.value ∧
        BoundValue.specLE b.start.value a.endp.value := by
  unfold Interval.overlaps
  rw [Bool.and_eq_true, BoundPoint.le_eq_true_iff, BoundPoint.ge_eq_true_iff]

lemma Interval.overlaps_of_contains_both {T : Type} [LinearOrder T]
    (a b : Interval T) (v : T) (ha : Interval.contains a v = true)
    (hb : Interval.contains b v = true) : Interval.overlaps a b = true := by
  rw [Interval.contains_eq_true_iff] at ha hb
  rw [Interval.overlaps_eq_true_iff]
  exact ⟨BoundValue.specLE_trans ha.1 hb.2, BoundValue.specLE_trans hb.1 ha.2⟩

/-- C1: for all intervals a and b, overlaps a b is true iff a.start <= b.end
and a.end >= b.start under the BoundPoint comparison (stated against the
spec-level order); in particular the two touching intervals from_to 0 3 Open
and from_to 3 4 Open do not overlap, while from_to 0 3 Close and
from_to 3 4 Close do. -/
theorem overlaps_iff_bound_comparisons :
    (∀ (T : Type) [LinearOrder T] (a b : Interval T),
        Interval.overlaps a b = true ↔
          (BoundValue.specLE a.start.value b.endp.value ∧
            BoundValue.specLE b.start.value a.endp.value)) ∧
    (Interval.from_to (0 : ℤ) 3 IntervalType.Open =
        Except.ok ⟨BoundPoint.after 0, BoundPoint.before 3⟩ ∧
      Interval.from_to (3 : ℤ) 4 IntervalType.Open =
        Except.ok ⟨BoundPoint.after 3, BoundPoint.before 4⟩ ∧
      Interval.overlaps ⟨BoundPoint.after (0 : ℤ), BoundPoint.before 3⟩
        ⟨BoundPoint.after 3, BoundPoint.before 4⟩ = false) ∧
    (Interval.from_to (0 : ℤ) 3 IntervalType.Close =
        Except.ok ⟨BoundPoint.at_ 0, BoundPoint.at_ 3⟩ ∧
      Interval.from_to (3 : ℤ) 4 IntervalType.Close =
        Except.ok ⟨BoundPoint.at_ 3, BoundPoint.at_ 4⟩ ∧
      Interval.overlaps ⟨BoundPoint.at_ (0 : ℤ), BoundPoint.at_ 3⟩
        ⟨BoundPoint.at_ 3, BoundPoint.at_ 4⟩ = true) := by
  refine ⟨?_, ⟨rfl, rfl, rfl⟩, ⟨rfl, rfl, rfl⟩⟩
  intro T _ a b
  exact Interval.overlaps_eq_true_iff a b

/-- C2: for every interval i and value v, contains i v is true iff
start <= at(v) <= end under the BoundPoint comparison (stated against the
spec-level order); in particular until_exclusive 1 does not contain 1,
until_inclusive 1 contains 1, since_exclusive 1 does not contain 1 and
since_inclusive 1 contains 1. -/
theorem contains_iff_bound_comparisons :
    (∀ (T : Type) [LinearOrder T] (i : Interval T) (v : T),
        Interval.contains i v = true ↔
          (BoundValue.specLE i.start.value
              (BoundValue.Finite v BoundProximity.At) ∧
            BoundValue.specLE (BoundValue.Finite v BoundProximity.At)
              i.endp.value)) ∧
    Interval.contains (Interval.until_exclusive (1 : ℤ)) 1 = false ∧
    Interval.contains (Interval.until_inclusive (1 : ℤ)) 1 = true ∧
    Interval.contains (Interval.since_exclusive (1 : ℤ)) 1 = false ∧
    Interval.contains (Interval.since_inclusive (1 : ℤ)) 1 = true := by
  refine ⟨?_, rfl, rfl, rfl, rfl⟩
  intro T _ i v
  exact Interval.contains_eq_true_iff i v

/-- C3: from_to start end kind fails with StartMustBeMinorThanEnd exactly
when start > end under T's native order, and succeeds whenever
start <= end (so in particular when start = end), for every IntervalType.
All other operations of the embedding are total by their types and cannot
fail. -/
theorem from_to_error_iff {T : Type} [LinearOrder T] (s e : T)
    (k : IntervalType) :
    (Interval.from_to s e k =
        Except.error IntervalError.StartMustBeMinorThanEnd ↔ e < s) ∧
    (s ≤ e → ∃ i, Interval.from_to s e k = Except.ok i) := by
  constructor
  · by_cases h : e < s
    · simp [Interval.from_to, Interval.validate, gt_iff_lt, h]
    · cases k <;> simp [Interval.from_to, Interval.validate, gt_iff_lt, h]
  · intro hle
    have h : ¬ e < s := not_lt.mpr hle
    cases k
    · exact ⟨⟨BoundPoint.after s, BoundPoint.before e⟩, by
        simp [Interval.from_to, Interval.validate, gt_iff_lt, h]⟩
    · exact ⟨⟨BoundPoint.after s, BoundPoint.at_ e⟩, by
        simp [Interval.from_to, Interval.validate, gt_iff_lt, h]⟩
    · exact ⟨⟨BoundPoint.at_ s, BoundPoint.before e⟩, by
        simp [Interval.from_to, Interval.validate, gt_iff_lt, h]⟩
    · exact ⟨⟨BoundPoint.at_ s, BoundPoint.at_ e⟩, by
        simp [Interval.from_to, Interval.validate, gt_iff_lt, h]⟩

/-- Witness for C3 at start = end = 0 over the integers. -/
theorem from_to_error_iff_witness :
    ∃ i, Interval.from_to (0 : ℤ) 0 IntervalType.Open = Except.ok i :=
  (from_to_error_iff (0 : ℤ) 0 IntervalType.Open).2 (by decide)

/-- C4: the BoundValue comparison is a total order in which NegInfinity is
strictly below every Finite value and PosInfinity, PosInfinity strictly
above every Finite value and NegInfinity, two Finite values compare first
by their T value and only on equal values by proximity with
Before < At < After; in particular a < b gives
Finite a p < Finite b q for all proximities.  Totality is recorded by the
equality, swap and transitivity laws of the comparison. -/
theorem bound_value_total_order {T : Type} [LinearOrder T] :
    (∀ (v : T) (p : BoundProximity),
        BoundValue.cmp BoundValue.NegInfinity (BoundValue.Finite v p) =
          Ordering.lt) ∧
    BoundValue.cmp (BoundValue.NegInfinity (T := T)) BoundValue.PosInfinity =
      Ordering.lt ∧
    (∀ (v : T) (p : BoundProximity),
        BoundValue.cmp (BoundValue.Finite v p) BoundValue.PosInfinity =
          Ordering.lt) ∧
    (∀ (a : T) (p q : BoundProximity),
        BoundValue.cmp (BoundValue.Finite a p) (BoundValue.Finite a q) =
          BoundProximity.cmp p q) ∧
    (BoundProximity.cmp BoundProximity.Before BoundProximity.At =
        Ordering.lt ∧
      BoundProximity.cmp BoundProximity.At BoundProximity.After =
        Ordering.lt) ∧
    (∀ (a b : T) (p q : BoundProximity), a < b →
        BoundValue.cmp (BoundValue.Finite a p) (BoundValue.Finite b q) =
          Ordering.lt) ∧
    (∀ x y : BoundValue T, BoundValue.cmp x y = Ordering.eq ↔ x = y) ∧
    (∀ x y : BoundValue T,
        BoundValue.cmp x y = Ordering.lt ↔
          BoundValue.cmp y x = Ordering.gt) ∧
    (∀ x y z : BoundValue T, BoundValue.cmp x y = Ordering.lt →
        BoundValue.cmp y z = Ordering.lt →
          BoundValue.cmp x z = Ordering.lt) := by
  refine ⟨fun v p => rfl, rfl, fun v p => rfl, ?_, ⟨rfl, rfl⟩, ?_, ?_, ?_, ?_⟩
  · intro a p q
    have hc : compare a a = Ordering.eq := compare_eq_iff_eq.mpr rfl
    simp only [BoundValue.cmp, hc]
  · intro a b p q h
    exact (BoundValue.cmp_eq_lt_iff _ _).mpr (Or.inl h)
  · intro x y
    exact BoundValue.cmp_eq_eq_iff x y
  · intro x y
    rw [BoundValue.cmp_eq_lt_iff, BoundValue.cmp_eq_gt_iff]
  · intro x y z hxy hyz
    rw [BoundValue.cmp_eq_lt_iff] at hxy hyz ⊢
    exact BoundValue.specLT_trans hxy hyz

/-- Witness for C4 at a concrete strict pair over the integers. -/
theorem bound_value_total_order_witness :
    BoundValue.cmp (BoundValue.Finite (0 : ℤ) BoundProximity.After)
      (BoundValue.Finite 1 BoundProximity.Before) = Ordering.lt :=
  (bound_value_total_order (T := ℤ)).2.2.2.2.2.1 0 1
    BoundProximity.After BoundProximity.Before (by decide)

/-- C5: for start <= end, from_to builds its two bound points exactly per
the boundary-kind mapping: Open gives (after start, before end), StartOpen
gives (after start, at end), EndOpen gives (at start, before end), Close
gives (at start, at end). -/
theorem from_to_kind_mapping {T : Type} [LinearOrder T] (s e : T)
    (h : s ≤ e) :
    Interval.from_to s e IntervalType.Open =
      Except.ok ⟨BoundPoint.after s, BoundPoint.before e⟩ ∧
    Interval.from_to s e IntervalType.StartOpen =
      Except.ok ⟨BoundPoint.after s, BoundPoint.at_ e⟩ ∧
    Interval.from_to s e IntervalType.EndOpen =
      Except.ok ⟨BoundPoint.at_ s, BoundPoint.before e⟩ ∧
    Interval.from_to s e IntervalType.Close =
      Except.ok ⟨BoundPoint.at_ s, BoundPoint.at_ e⟩ := by
  have hng : ¬ e < s := not_lt.mpr h
  refine ⟨?_, ?_, ?_, ?_⟩ <;>
    simp [Interval.from_to, Interval.validate, gt_iff_lt, hng]

/-- Witness for C5 at (0, 1) over the integers. -/
theorem from_to_kind_mapping_witness :
    Interval.from_to (0 : ℤ) 1 IntervalType.Open =
      Except.ok ⟨BoundPoint.after 0, BoundPoint.before 1⟩ ∧
    Interval.from_to (0 : ℤ) 1 IntervalType.StartOpen =
      Except.ok ⟨BoundPoint.after 0, BoundPoint.at_ 1⟩ ∧
    Interval.from_to (0 : ℤ) 1 IntervalType.EndOpen =
      Except.ok ⟨BoundPoint.at_ 0, BoundPoint.before 1⟩ ∧
    Interval.from_to (0 : ℤ) 1 IntervalType.Close =
      Except.ok ⟨BoundPoint.at_ 0, BoundPoint.at_ 1⟩ :=
  from_to_kind_mapping (0 : ℤ) 1 (by decide)

/-- C6: for every x, from_to x x Open succeeds, and the resulting interval
(after x, before x) contains no value, because after x is strictly greater
than before x when the values are equal. -/
theorem from_to_open_equal_is_empty {T : Type} [LinearOrder T] (x : T) :
    Interval.from_to x x IntervalType.Open =
      Except.ok ⟨BoundPoint.after x, BoundPoint.before x⟩ ∧
    (∀ v : T,
        Interval.contains ⟨BoundPoint.after x, BoundPoint.before x⟩ v =
          false) ∧
    BoundValue.cmp (BoundPoint.after x).value (BoundPoint.before x).value =
      Ordering.gt := by
  refine ⟨?_, ?_, ?_⟩
  · simp [Interval.from_to, Interval.validate, gt_iff_lt, lt_irrefl]
  · intro v
    rw [Bool.eq_false_iff]
    intro hc
    rw [Interval.contains_eq_true_iff] at hc
    obtain ⟨h1, h2⟩ := hc
    simp [BoundPoint.after, BoundPoint.before, BoundPoint.at_,
      BoundValue.specLE_finite_iff, BoundProximity.rank] at h1 h2
    exact absurd (lt_trans h1 h2) (lt_irrefl x)
  · rw [BoundValue.cmp_eq_gt_iff]
    rw [show (BoundPoint.after x).value =
      BoundValue.Finite x BoundProximity.After from rfl]
    right
    exact ⟨rfl, by decide⟩

/-- C8: overlaps is symmetric: overlaps a b = overlaps b a for all
intervals. -/
theorem overlaps_comm {T : Type} [LinearOrder T] (a b : Interval T) :
    Interval.overlaps a b = Interval.overlaps b a := by
  rw [Bool.eq_iff_iff, Interval.overlaps_eq_true_iff,
    Interval.overlaps_eq_true_iff]
  exact and_comm

/-- C9: containment implies overlap: if a and b both contain v, then a
overlaps b. -/
theorem overlaps_of_common_point {T : Type} [LinearOrder T]
    (a b : Interval T) (v : T) (ha : Interval.contains a v = true)
    (hb : Interval.contains b v = true) : Interval.overlaps a b = true :=
  Interval.overlaps_of_contains_both a b v ha hb

/-- Witness for C9: the intervals [0, +inf) and (-inf, 2] both contain 1
and therefore overlap. -/
theorem overlaps_of_common_point_witness :
    Interval.overlaps (Interval.since_inclusive (0 : ℤ))
      (Interval.until_inclusive 2) = true :=
  overlaps_of_common_point (Interval.since_inclusive (0 : ℤ))
    (Interval.until_inclusive 2) 1 (by decide) (by decide)

/-- C10: with equal endpoints, StartOpen and EndOpen intervals are empty
just like Open ones, since after x > at x and at x > before x; only Close
yields a non-empty interval, the singleton containing exactly x. -/
theorem from_to_equal_endpoints_by_kind {T : Type} [LinearOrder T] (x : T) :
    Interval.from_to x x IntervalType.StartOpen =
      Except.ok ⟨BoundPoint.after x, BoundPoint.at_ x⟩ ∧
    (∀ v : T,
        Interval.contains ⟨BoundPoint.after x, BoundPoint.at_ x⟩ v =
          false) ∧
    Interval.from_to x x IntervalType.EndOpen =
      Except.ok ⟨BoundPoint.at_ x, BoundPoint.before x⟩ ∧
    (∀ v : T,
        Interval.contains ⟨BoundPoint.at_ x, BoundPoint.before x⟩ v =
          false) ∧
    Interval.from_to x x IntervalType.Close =
      Except.ok ⟨BoundPoint.at_ x, BoundPoint.at_ x⟩ ∧
    (∀ v : T,
        Interval.contains ⟨BoundPoint.at_ x, BoundPoint.at_ x⟩ v = true ↔
          v = x) ∧
    BoundValue.cmp (BoundPoint.after x).value (BoundPoint.at_ x).value =
      Ordering.gt ∧
    BoundValue.cmp (BoundPoint.at_ x).value (BoundPoint.before x).value =
      Ordering.gt := by
  refine ⟨?_, ?_, ?_, ?_, ?_, ?_, ?_, ?_⟩
  · simp [Interval.from_to, Interval.validate, gt_iff_lt, lt_irrefl]
  · intro v
    rw [Bool.eq_false_iff]
    intro hc
    rw [Interval.contains_eq_true_iff] at hc
    obtain ⟨h1, h2⟩ := hc
    simp [BoundPoint.after, BoundPoint.before, BoundPoint.at_,
      BoundValue.specLE_finite_iff, BoundProximity.rank] at h1 h2
    rcases h2 with h2 | h2
    · exact absurd (lt_trans h1 h2) (lt_irrefl x)
    · subst h2
      exact absurd h1 (lt_irrefl v)
  · simp [Interval.from_to, Interval.validate, gt_iff_lt, lt_irrefl]
  · intro v
    rw [Bool.eq_false_iff]
    intro hc
    rw [Interval.contains_eq_true_iff] at hc
    obtain ⟨h1, h2⟩ := hc
    simp [BoundPoint.after, BoundPoint.before, BoundPoint.at_,
      BoundValue.specLE_finite_iff, BoundProximity.rank] at h1 h2
    rcases h1 with h1 | h1
    · exact absurd (lt_trans h1 h2) (lt_irrefl x)
    · subst h1
      exact absurd h2 (lt_irrefl _)
  · simp [Interval.from_to, Interval.validate, gt_iff_lt, lt_irrefl]
  · intro v
    rw [Interval.contains_eq_true_iff]
    rw [show (BoundPoint.at_ x).value =
      BoundValue.Finite x BoundProximity.At from rfl]
    rw [BoundValue.specLE_finite_iff, BoundValue.specLE_finite_iff]
    constructor
    · rintro ⟨h1 | ⟨h1, -⟩, h2 | ⟨h2, -⟩⟩
      · exact absurd (lt_trans h1 h2) (lt_irrefl x)
      · exact h2
      · exact h1.symm
      · exact h2
    · rintro rfl
      exact ⟨Or.inr ⟨rfl, le_refl _⟩, Or.inr ⟨rfl, le_refl _⟩⟩
  · rw [BoundValue.cmp_eq_gt_iff]
    right
    exact ⟨rfl, by decide⟩
  · rw [BoundValue.cmp_eq_gt_iff]
    right
    exact ⟨rfl, by decide⟩

/-- C7 counterexample: the empty interval built by from_to 0 0 Open over
the integers overlaps the interval until_inclusive 5 even though the two
share no point, so overlaps is not equivalent to the existence of a common
contained value. -/
theorem overlaps_without_common_point :
    Interval.from_to (0 : ℤ) 0 IntervalType.Open =
      Except.ok ⟨BoundPoint.after 0, BoundPoint.before 0⟩ ∧
    ¬ (Interval.overlaps ⟨BoundPoint.after (0 : ℤ), BoundPoint.before 0⟩
          (Interval.until_inclusive 5) = true ↔
        ∃ v : ℤ,
          Interval.contains ⟨BoundPoint.after (0 : ℤ), BoundPoint.before 0⟩
              v = true ∧
            Interval.contains (Interval.until_inclusive 5) v = true) := by
  refine ⟨rfl, fun hiff => ?_⟩
  obtain ⟨v, hv1, -⟩ := hiff.mp (by decide)
  rw [Interval.contains_eq_true_iff] at hv1
  obtain ⟨h1, h2⟩ := hv1
  simp [BoundPoint.after, BoundPoint.before,
    BoundValue.specLE_finite_iff, BoundProximity.rank] at h1 h2
  omega

/-- C7 (amended): a common contained value implies overlap, for all
intervals over any axis; the converse direction fails, because an interval
constructed empty still overlaps intervals it shares no point with. -/
theorem overlaps_common_point_one_direction :
    (∀ (T : Type) [LinearOrder T] (a b : Interval T) (v : T),
        Interval.contains a v = true → Interval.contains b v = true →
          Interval.overlaps a b = true) ∧
    ¬ (∀ a b : Interval ℤ, Interval.overlaps a b = true →
        ∃ v : ℤ, Interval.contains a v = true ∧
          Interval.contains b v = true) := by
  constructor
  · intro T _ a b v ha hb
    exact Interval.overlaps_of_contains_both a b v ha hb
  · intro hall
    obtain ⟨v, hv1, -⟩ :=
      hall ⟨BoundPoint.after 0, BoundPoint.before 0⟩
        (Interval.until_inclusive 5) (by decide)
    rw [Interval.contains_eq_true_iff] at hv1
    obtain ⟨h1, h2⟩ := hv1
    simp [BoundPoint.after, BoundPoint.before,
      BoundValue.specLE_finite_iff, BoundProximity.rank] at h1 h2
    omega

/-- Witness for the amended C7: [3, +inf) and (-inf, 7] both contain 5 and
therefore overlap. -/
theorem overlaps_common_point_one_direction_witness :
    Interval.overlaps (Interval.since_inclusive (3 : ℤ))
      (Interval.until_inclusive 7) = true :=
  overlaps_common_point_one_direction.1 ℤ (Interval.since_inclusive 3)
    (Interval.until_inclusive 7) 5 (by decide) (by decide)

end MyInterval
